import Mathlib

/-!
Shallow embedding of the core of the bidirectional Chakma/Bangla translation
service (`src/main.py`): the dictionary builder `_build_dictionaries`, the
lookup functions `translate_word` and `translate_sentence`, and the
`/translate/word` HTTP endpoint's request-handling logic.

Python strings are modelled as Lean `String` (a wrapper around `List Char`);
the Python primitives used by the code (`str.strip`, `str.lower`,
`str.split(',')`, argument-free `str.split()`, `str.join`) are embedded as
executable recursive functions with the same semantics.  Python `dict` with
assignment is modelled as an association list where assignment overwrites the
existing binding for a present key and appends otherwise, which reproduces
`dict.get` behaviour exactly.
-/

namespace Main

/-- The whitespace characters recognised by Python's `str.split()` /
`str.strip()` for the ASCII range: space, tab, newline, carriage return,
vertical tab, form feed. -/
def isWS (c : Char) : Bool :=
  c == ' ' || c == '\t' || c == '\n' || c == '\r' ||
    c == Char.ofNat 11 || c == Char.ofNat 12

/-- ASCII lower-casing of one character, as Python `str.lower` acts on the
ASCII letters. -/
def pyLowerChar (c : Char) : Char :=
  if 'A' ≤ c && c ≤ 'Z' then Char.ofNat (c.toNat + 32) else c

/-- Python `s.lower()`. -/
def pyLower (s : String) : String := ⟨s.data.map pyLowerChar⟩

/-- Strip leading and trailing whitespace from a character list. -/
def stripChars (l : List Char) : List Char :=
  ((l.dropWhile isWS).reverse.dropWhile isWS).reverse

/-- Python `s.strip()`. -/
def pyStrip (s : String) : String := ⟨stripChars s.data⟩

/-- Python `s.split(',')` on character lists, with an accumulator for the
piece currently being read.  Empty pieces are kept, and the result always has
at least one piece (`"".split(',') == [""]`). -/
def splitCommaChars : List Char → List Char → List (List Char)
  | [], acc => [acc.reverse]
  | c :: cs, acc =>
    if c == ',' then acc.reverse :: splitCommaChars cs []
    else splitCommaChars cs (c :: acc)

/-- Python `s.split(',')`. -/
def pySplitComma (s : String) : List String :=
  (splitCommaChars s.data []).map (⟨·⟩)

/-- Python argument-free `s.split()` on character lists: split on runs of
whitespace, producing no empty tokens. -/
def splitWsChars : List Char → List Char → List (List Char)
  | [], acc => if acc.isEmpty then [] else [acc.reverse]
  | c :: cs, acc =>
    if isWS c then
      if acc.isEmpty then splitWsChars cs []
      else acc.reverse :: splitWsChars cs []
    else splitWsChars cs (c :: acc)

/-- Python argument-free `s.split()`. -/
def pySplitWs (s : String) : List String :=
  (splitWsChars s.data []).map (⟨·⟩)

/-- Python `sep.join(l)`. -/
def pyJoin (sep : String) : List String → String
  | [] => ""
  | [x] => x
  | x :: y :: xs => x ++ sep ++ pyJoin sep (y :: xs)

/-- One cell of the CSV turned into its word list:
`[word.strip() for word in str(cell).split(',')]` (main.py lines 27-28).
Note that empty pieces are KEPT in this list; they are only skipped later,
at key-insertion time. -/
def splitWords (cell : String) : List String :=
  (pySplitComma cell).map pyStrip

/-- A Python dict from terms to synonym lists, as an association list. -/
abbrev Dict := List (String × List String)

/-- Python `dictionary.get(k, default)` without the default: `none` on a
missing key. -/
def dget (d : Dict) (k : String) : Option (List String) :=
  (d.find? (fun p => p.1 == k)).map (·.2)

/-- Python `dictionary[k] = v`: overwrite the binding of a present key in
place, append a new binding at the end otherwise. -/
def dinsert : Dict → String → List String → Dict
  | [], k, v => [(k, v)]
  | p :: ps, k, v => if p.1 = k then (k, v) :: ps else p :: dinsert ps k v

/-- One row of the source CSV, with the two cells already rendered to
strings as `str(row['chakma'])` / `str(row['bangla'])` do. -/
structure Row where
  chakma : String
  bangla : String

/-- The two directional indexes held by `BidirectionalTranslator`. -/
structure Dicts where
  chakma_to_bangla : Dict
  bangla_to_chakma : Dict

/-- One step of the insertion loops of `_build_dictionaries`: skip an empty
piece (`if chakma:` / `if bangla:`), otherwise assign
`dictionary[piece.lower()] = bangla_words`. -/
def insStep (v : List String) (acc : Dict) (w : String) : Dict :=
  if w ≠ "" then dinsert acc (pyLower w) v else acc

/-- The body of one iteration of the row loop of `_build_dictionaries`
(main.py lines 25-37): split and strip both cells, then insert every
non-empty chakma piece (lower-cased) mapping to `bangla_words`, and every
non-empty bangla piece (lower-cased) also mapping to `bangla_words`. -/
def addRow (d : Dicts) (row : Row) : Dicts :=
  let chakma_words := splitWords row.chakma
  let bangla_words := splitWords row.bangla
  ⟨chakma_words.foldl (insStep bangla_words) d.chakma_to_bangla,
   bangla_words.foldl (insStep bangla_words) d.bangla_to_chakma⟩

/-- `_build_dictionaries`: fold the row loop over the CSV rows, starting from
two empty dicts. -/
def build_dictionaries (rows : List Row) : Dicts :=
  rows.foldl addRow ⟨[], []⟩

/-- `translate_word` (main.py lines 39-52): lower-case the word (no
trimming), pick the index by direction, and fall back to the lower-cased
word itself on a miss. -/
def translate_word (d : Dicts) (word : String) (to_bangla : Bool) : List String :=
  let word := pyLower word
  let dictionary := if to_bangla then d.chakma_to_bangla else d.bangla_to_chakma
  (dget dictionary word).getD [word]

/-- `translate_sentence` (main.py lines 54-80).  Python reads
`translations[0]`, which is embedded as `headD ""`; for the dictionaries the
program actually builds the translation list is provably never empty, so the
default is never taken. -/
def translate_sentence (d : Dicts) (sentence : String) (to_bangla : Bool) :
    String × List String :=
  let words := pySplitWs sentence
  let primary_translation :=
    words.map (fun w => (translate_word d w to_bangla).headD "")
  let all_possibilities := words.filterMap (fun w =>
    let translations := translate_word d w to_bangla
    if translations.length > 1 then
      some (w ++ ": " ++ pyJoin ", " translations)
    else none)
  let primary := pyJoin " " primary_translation
  let alternatives :=
    if all_possibilities.isEmpty then ["No alternative translations"]
    else all_possibilities
  (primary, alternatives)

/-- The `all_possibilities` list accumulated by `translate_sentence`
(main.py lines 73-75), written as a `filterMap`: one formatted entry
`"word: syn1, syn2, ..."` per token whose lookup has more than one
element. -/
def altEntries (d : Dicts) (s : String) (to_bangla : Bool) : List String :=
  (pySplitWs s).filterMap (fun w =>
    if (translate_word d w to_bangla).length > 1 then
      some (w ++ ": " ++ pyJoin ", " (translate_word d w to_bangla))
    else none)

/-- The JSON body of a `/translate/word` request, keeping only the fields the
handler reads; a `none` field is an absent key.  An empty JSON object `{}`
(falsy in Python, caught by `if not data`) is the body with both fields
absent, which the handler rejects identically. -/
structure ReqBody where
  text : Option String
  to_bangla : Option Bool

/-- The success payload of the `/translate/word` endpoint. -/
structure SuccessBody where
  text : String
  primary_translation : String
  alternative_translations : List String
  direction : String

/-- An HTTP reply: status code, the `error` field when present, and the
success payload when present. -/
structure Reply where
  status : Nat
  error : Option String
  body : Option SuccessBody

/-- The `/translate/word` handler (main.py lines 94-132) on a type-correct
request: reject a missing body or missing `text` field with 400, strip the
text and reject an empty result with 400, otherwise translate and answer
200.  The handler only reads the shared `Dicts`; the embedding returns no
modified state, mirroring the code's read-only access. -/
def translate_word_endpoint (t : Dicts) (data : Option ReqBody) : Reply :=
  match data with
  | none => ⟨400, some "Missing required field: text", none⟩
  | some d =>
    match d.text with
    | none => ⟨400, some "Missing required field: text", none⟩
    | some raw =>
      let text := pyStrip raw
      let to_bangla := d.to_bangla.getD true
      if text = "" then ⟨400, some "Empty text provided", none⟩
      else
        let translations := translate_word t text to_bangla
        ⟨200, none, some ⟨text, translations.headD "", translations.tail,
          if to_bangla then "chakma_to_bangla" else "bangla_to_chakma"⟩⟩

/-! Dictionary lemmas -/

theorem dget_cons (p : String × List String) (ps : Dict) (q : String) :
    dget (p :: ps) q = if p.1 = q then some p.2 else dget ps q := by
  by_cases h : p.1 = q <;> simp [dget, List.find?_cons, h]

theorem dget_dinsert (d : Dict) (k : String) (v : List String) (q : String) :
    dget (dinsert d k v) q = if q = k then some v else dget d q := by
  induction d with
  | nil =>
    rw [show dinsert [] k v = [(k, v)] from rfl, dget_cons]
    by_cases h : q = k
    · simp [h]
    · simp [h, Ne.symm h]
  | cons p ps ih =>
    simp only [dinsert]
    by_cases h1 : p.1 = k
    · rw [if_pos h1, dget_cons, dget_cons]
      by_cases h2 : q = k
      · simp [h2]
      · have h3 : p.1 ≠ q := by rw [h1]; exact Ne.symm h2
        simp [h2, Ne.symm h2, h3]
    · rw [if_neg h1, dget_cons, ih, dget_cons]
      by_cases h2 : p.1 = q
      · have h3 : q ≠ k := fun hc => h1 (h2.trans hc)
        simp [h2, h3]
      · simp [h2]

theorem mem_dinsert (d : Dict) (k : String) (v : List String)
    (q : String × List String) (h : q ∈ dinsert d k v) : q ∈ d ∨ q = (k, v) := by
  induction d with
  | nil =>
    simp only [dinsert, List.mem_singleton] at h
    exact Or.inr h
  | cons p ps ih =>
    simp only [dinsert] at h
    by_cases h1 : p.1 = k
    · rw [if_pos h1] at h
      rcases List.mem_cons.mp h with h2 | h2
      · exact Or.inr h2
      · exact Or.inl (List.mem_cons_of_mem _ h2)
    · rw [if_neg h1] at h
      rcases List.mem_cons.mp h with h2 | h2
      · exact Or.inl (h2 ▸ List.mem_cons_self _ _)
      · rcases ih h2 with h3 | h3
        · exact Or.inl (List.mem_cons_of_mem _ h3)
        · exact Or.inr h3

/-! Insertion-loop lemmas -/

theorem dget_foldl_insStep_of_some (L : List String) (v : List String) (d : Dict)
    (k : String) (h : dget d k = some v) :
    dget (L.foldl (insStep v) d) k = some v := by
  induction L generalizing d with
  | nil => exact h
  | cons w ws ih =>
    apply ih
    by_cases hw : w = ""
    · simpa [insStep, hw] using h
    · rw [show insStep v d w = dinsert d (pyLower w) v from if_pos hw, dget_dinsert]
      by_cases hk : k = pyLower w
      · simp [hk]
      · simp [hk, h]

theorem dget_foldl_insStep_mem (L : List String) (v : List String) (d : Dict)
    (w : String) (hmem : w ∈ L) (hne : w ≠ "") :
    dget (L.foldl (insStep v) d) (pyLower w) = some v := by
  induction L generalizing d with
  | nil => cases hmem
  | cons x xs ih =>
    rcases List.mem_cons.mp hmem with h | h
    · subst h
      rw [List.foldl_cons]
      apply dget_foldl_insStep_of_some
      rw [show insStep v d w = dinsert d (pyLower w) v from if_pos hne, dget_dinsert]
      simp
    · rw [List.foldl_cons]
      exact ih _ h

theorem dget_foldl_insStep_of_no_key (L : List String) (v : List String) (d : Dict)
    (k : String) (h : ∀ w ∈ L, w ≠ "" → pyLower w ≠ k) :
    dget (L.foldl (insStep v) d) k = dget d k := by
  induction L generalizing d with
  | nil => rfl
  | cons x xs ih =>
    rw [List.foldl_cons, ih _ (fun w hw => h w (List.mem_cons_of_mem _ hw))]
    by_cases hx : x = ""
    · simp [insStep, hx]
    · rw [show insStep v d x = dinsert d (pyLower x) v from if_pos hx, dget_dinsert]
      have h2 := h x (List.mem_cons_self _ _) hx
      rw [if_neg (fun hc => h2 hc.symm)]

theorem mem_foldl_insStep (L : List String) (v : List String) (d : Dict)
    (q : String × List String) (h : q ∈ L.foldl (insStep v) d) :
    q ∈ d ∨ ∃ w ∈ L, w ≠ "" ∧ q = (pyLower w, v) := by
  induction L generalizing d with
  | nil => exact Or.inl h
  | cons x xs ih =>
    rw [List.foldl_cons] at h
    rcases ih _ h with h1 | h1
    · by_cases hx : x = ""
      · rw [show insStep v d x = d from if_neg (by simp [hx])] at h1
        exact Or.inl h1
      · rw [show insStep v d x = dinsert d (pyLower x) v from if_pos hx] at h1
        rcases mem_dinsert _ _ _ _ h1 with h2 | h2
        · exact Or.inl h2
        · exact Or.inr ⟨x, List.mem_cons_self _ _, hx, h2⟩
    · rcases h1 with ⟨w, hw, hne, hq⟩
      exact Or.inr ⟨w, List.mem_cons_of_mem _ hw, hne, hq⟩

/-! Build lemmas -/

theorem c2b_foldl_addRow (rows : List Row) (d : Dicts) (q : String × List String)
    (h : q ∈ (rows.foldl addRow d).chakma_to_bangla) :
    q ∈ d.chakma_to_bangla ∨
      ∃ r ∈ rows, ∃ w ∈ splitWords r.chakma, w ≠ "" ∧
        q = (pyLower w, splitWords r.bangla) := by
  induction rows generalizing d with
  | nil => exact Or.inl h
  | cons r rs ih =>
    rw [List.foldl_cons] at h
    rcases ih _ h with h1 | h1
    · rcases mem_foldl_insStep _ _ _ _ h1 with h2 | h2
      · exact Or.inl h2
      · rcases h2 with ⟨w, hw, hne, hq⟩
        exact Or.inr ⟨r, List.mem_cons_self _ _, w, hw, hne, hq⟩
    · rcases h1 with ⟨r2, hr2, w, hw, hne, hq⟩
      exact Or.inr ⟨r2, List.mem_cons_of_mem _ hr2, w, hw, hne, hq⟩

theorem b2c_foldl_addRow (rows : List Row) (d : Dicts) (q : String × List String)
    (h : q ∈ (rows.foldl addRow d).bangla_to_chakma) :
    q ∈ d.bangla_to_chakma ∨
      ∃ r ∈ rows, ∃ w ∈ splitWords r.bangla, w ≠ "" ∧
        q = (pyLower w, splitWords r.bangla) := by
  induction rows generalizing d with
  | nil => exact Or.inl h
  | cons r rs ih =>
    rw [List.foldl_cons] at h
    rcases ih _ h with h1 | h1
    · rcases mem_foldl_insStep _ _ _ _ h1 with h2 | h2
      · exact Or.inl h2
      · rcases h2 with ⟨w, hw, hne, hq⟩
        exact Or.inr ⟨r, List.mem_cons_self _ _, w, hw, hne, hq⟩
    · rcases h1 with ⟨r2, hr2, w, hw, hne, hq⟩
      exact Or.inr ⟨r2, List.mem_cons_of_mem _ hr2, w, hw, hne, hq⟩

theorem mem_build_c2b (rows : List Row) (q : String × List String)
    (h : q ∈ (build_dictionaries rows).chakma_to_bangla) :
    ∃ r ∈ rows, ∃ w ∈ splitWords r.chakma, w ≠ "" ∧
      q = (pyLower w, splitWords r.bangla) := by
  rcases c2b_foldl_addRow rows ⟨[], []⟩ q h with h1 | h1
  · cases h1
  · exact h1

theorem mem_build_b2c (rows : List Row) (q : String × List String)
    (h : q ∈ (build_dictionaries rows).bangla_to_chakma) :
    ∃ r ∈ rows, ∃ w ∈ splitWords r.bangla, w ≠ "" ∧
      q = (pyLower w, splitWords r.bangla) := by
  rcases b2c_foldl_addRow rows ⟨[], []⟩ q h with h1 | h1
  · cases h1
  · exact h1

theorem splitCommaChars_ne_nil (l acc : List Char) : splitCommaChars l acc ≠ [] := by
  induction l generalizing acc with
  | nil => simp [splitCommaChars]
  | cons c cs ih =>
    simp only [splitCommaChars]
    split
    · simp
    · exact ih _

theorem splitWords_ne_nil (cell : String) : splitWords cell ≠ [] := by
  intro h
  unfold splitWords pySplitComma at h
  rw [List.map_eq_nil_iff, List.map_eq_nil_iff] at h
  exact splitCommaChars_ne_nil cell.data [] h

theorem mem_of_dget (d : Dict) (k : String) (v : List String)
    (h : dget d k = some v) : (k, v) ∈ d := by
  unfold dget at h
  cases hf : List.find? (fun p => p.1 == k) d with
  | none => rw [hf] at h; cases h
  | some p =>
    rw [hf] at h
    have hp : p ∈ d := List.mem_of_find?_eq_some hf
    have hpk := List.find?_some hf
    have h2 : p.2 = v := by simpa using h
    have h1 : p.1 = k := by simpa using hpk
    have h3 : (k, v) = p := by rw [← h1, ← h2]
    exact h3 ▸ hp

theorem pyLower_ne_empty (w : String) (h : w ≠ "") : pyLower w ≠ "" := by
  intro hc
  apply h
  have h2 : w.data.map pyLowerChar = [] := congrArg String.data hc
  rw [List.map_eq_nil_iff] at h2
  exact String.ext h2

/-- The row contributes key `k` to the chakma-to-bangla index: some non-empty
stripped chakma piece lower-cases to `k`. -/
def rowHasKeyC (r : Row) (k : String) : Prop :=
  ∃ w ∈ splitWords r.chakma, w ≠ "" ∧ pyLower w = k

/-- The row contributes key `k` to the bangla-to-chakma index: some non-empty
stripped bangla piece lower-cases to `k`. -/
def rowHasKeyB (r : Row) (k : String) : Prop :=
  ∃ w ∈ splitWords r.bangla, w ≠ "" ∧ pyLower w = k

theorem dget_c2b_foldl_addRow_of_no_key (rows : List Row) (d : Dicts) (k : String)
    (h : ∀ r ∈ rows, ¬ rowHasKeyC r k) :
    dget (rows.foldl addRow d).chakma_to_bangla k = dget d.chakma_to_bangla k := by
  induction rows generalizing d with
  | nil => rfl
  | cons r rs ih =>
    rw [List.foldl_cons, ih _ (fun r2 hr2 => h r2 (List.mem_cons_of_mem _ hr2))]
    have h1 := h r (List.mem_cons_self _ _)
    exact dget_foldl_insStep_of_no_key _ _ _ _
      (fun w hw hne hc => h1 ⟨w, hw, hne, hc⟩)

theorem dget_b2c_foldl_addRow_of_no_key (rows : List Row) (d : Dicts) (k : String)
    (h : ∀ r ∈ rows, ¬ rowHasKeyB r k) :
    dget (rows.foldl addRow d).bangla_to_chakma k = dget d.bangla_to_chakma k := by
  induction rows generalizing d with
  | nil => rfl
  | cons r rs ih =>
    rw [List.foldl_cons, ih _ (fun r2 hr2 => h r2 (List.mem_cons_of_mem _ hr2))]
    have h1 := h r (List.mem_cons_self _ _)
    exact dget_foldl_insStep_of_no_key _ _ _ _
      (fun w hw hne hc => h1 ⟨w, hw, hne, hc⟩)

/-! Claim theorems -/

/-- C1: the loader builds the reverse index with a B-to-B self-mapping.
After processing any source row, every non-empty trimmed bangla piece `b` is
mapped (under lower-casing) in `bangla_to_chakma` to the row's full bangla
synonym list (not the chakma list); and for the row
`chakma="cha1, cha2", bangla="ban1"` the built indexes satisfy
`AtoB["cha1"] == ["ban1"]`, `AtoB["cha2"] == ["ban1"]`, and
`BtoA["ban1"] == ["ban1"]`. -/
theorem claim_C1_b_to_b_self_mapping :
    (∀ (d : Dicts) (r : Row) (b : String), b ∈ splitWords r.bangla → b ≠ "" →
      dget (addRow d r).bangla_to_chakma (pyLower b) = some (splitWords r.bangla)) ∧
    dget (build_dictionaries [⟨"cha1, cha2", "ban1"⟩]).chakma_to_bangla "cha1"
      = some ["ban1"] ∧
    dget (build_dictionaries [⟨"cha1, cha2", "ban1"⟩]).chakma_to_bangla "cha2"
      = some ["ban1"] ∧
    dget (build_dictionaries [⟨"cha1, cha2", "ban1"⟩]).bangla_to_chakma "ban1"
      = some ["ban1"] := by
  refine ⟨fun d r b hb hne => dget_foldl_insStep_mem _ _ _ _ hb hne, ?_, ?_, ?_⟩
  · decide
  · decide
  · decide

/-- Witness for C1: the per-row mapping statement applied to the row
`chakma="c1", bangla="b1, b2"` and the term `"b1"`. -/
theorem claim_C1_witness :
    dget (addRow ⟨[], []⟩ ⟨"c1", "b1, b2"⟩).bangla_to_chakma "b1"
      = some ["b1", "b2"] :=
  claim_C1_b_to_b_self_mapping.1 ⟨[], []⟩ ⟨"c1", "b1, b2"⟩ "b1"
    (by decide) (by decide)

/-- C2 counterexample: `translate_word` does NOT trim its argument, so for
the unknown word `" x"` (with a leading space) it returns `[" x"]`, not the
trimmed-and-lowered `["x"]` that the claim's `normalize` requires — even
though `" x"` is absent from the selected index after normalization. -/
theorem claim_C2_counterexample :
    dget (build_dictionaries []).chakma_to_bangla (pyLower (pyStrip " x")) = none ∧
    translate_word (build_dictionaries []) " x" true ≠ [pyLower (pyStrip " x")] := by
  refine ⟨rfl, ?_⟩
  decide

/-- C2 amended: for every word whose LOWER-CASED form (no trimming — the code
applies `word.lower()` only) is not a key of the index selected by the
direction, `translate_word` returns exactly the single-element list
containing the lower-cased input word. -/
theorem claim_C2_miss_returns_lowercased (d : Dicts) (w : String) (b : Bool)
    (h : dget (if b then d.chakma_to_bangla else d.bangla_to_chakma) (pyLower w)
      = none) :
    translate_word d w b = [pyLower w] := by
  show (dget (if b then d.chakma_to_bangla else d.bangla_to_chakma)
    (pyLower w)).getD [pyLower w] = [pyLower w]
  rw [h]
  rfl

/-- Witness for C2 (amended): the unknown word `"Hej"` on empty dictionaries
passes through lower-cased. -/
theorem claim_C2_witness :
    translate_word (build_dictionaries []) "Hej" true = [pyLower "Hej"] :=
  claim_C2_miss_returns_lowercased (build_dictionaries []) "Hej" true (by decide)

/-- C4 counterexample: for the two rows `("k","a")` and `("k","b")` sharing
the key `"k"`, the built index stores `["b"]` — the synonym list of the
LAST-seen row — not the first-seen row's `["a"]` as the claim states. -/
theorem claim_C4_counterexample :
    dget (build_dictionaries [⟨"k", "a"⟩, ⟨"k", "b"⟩]).chakma_to_bangla "k"
      = some ["b"] ∧ (["b"] : List String) ≠ ["a"] := by
  refine ⟨?_, ?_⟩ <;> decide

/-- C4 amended: later rows for the same key overwrite earlier ones, so the
synonym sequence stored for a key shared by several rows is the one from the
LAST-seen row that contains the key (in either index). -/
theorem claim_C4_last_row_wins :
    (∀ (rows1 rows2 : List Row) (r : Row) (w : String),
      w ∈ splitWords r.chakma → w ≠ "" →
      (∀ r2 ∈ rows2, ¬ rowHasKeyC r2 (pyLower w)) →
      dget (build_dictionaries (rows1 ++ r :: rows2)).chakma_to_bangla (pyLower w)
        = some (splitWords r.bangla)) ∧
    (∀ (rows1 rows2 : List Row) (r : Row) (w : String),
      w ∈ splitWords r.bangla → w ≠ "" →
      (∀ r2 ∈ rows2, ¬ rowHasKeyB r2 (pyLower w)) →
      dget (build_dictionaries (rows1 ++ r :: rows2)).bangla_to_chakma (pyLower w)
        = some (splitWords r.bangla)) := by
  constructor
  · intro rows1 rows2 r w hw hne h2
    unfold build_dictionaries
    rw [List.foldl_append, List.foldl_cons,
      dget_c2b_foldl_addRow_of_no_key _ _ _ h2]
    exact dget_foldl_insStep_mem _ _ _ _ hw hne
  · intro rows1 rows2 r w hw hne h2
    unfold build_dictionaries
    rw [List.foldl_append, List.foldl_cons,
      dget_b2c_foldl_addRow_of_no_key _ _ _ h2]
    exact dget_foldl_insStep_mem _ _ _ _ hw hne

/-- Witness for C4 (amended): with rows `("k","a")` then `("k","b")`, the
later row's list `["b"]` is stored for the shared key `"k"`. -/
theorem claim_C4_witness :
    dget (build_dictionaries ([⟨"k", "a"⟩] ++ ⟨"k", "b"⟩ :: [])).chakma_to_bangla
      (pyLower "k") = some (splitWords "b") :=
  claim_C4_last_row_wins.1 [⟨"k", "a"⟩] [] ⟨"k", "b"⟩ "k" (by decide) (by decide)
    (fun r2 hr2 => absurd hr2 (List.not_mem_nil _))

/-- C3 counterexample: an entirely empty cell is NOT treated as an empty
list.  Python `"".split(',')` yields one empty piece, so `splitWords ""` is
`[""]`, and the row `("x", "")` stores the value `[""]` — a one-element list
holding the empty string — in `chakma_to_bangla`, observably different from
the empty list the claim prescribes. -/
theorem claim_C3_counterexample :
    splitWords "" = [""] ∧
    dget (build_dictionaries [⟨"x", ""⟩]).chakma_to_bangla "x" = some [""] ∧
    some [""] ≠ some ([] : List String) := by
  refine ⟨?_, ?_, ?_⟩ <;> decide

/-- C3 amended: an entirely empty cell contributes no keys to its index (not
an error), but its piece list is `[""]` rather than `[]`, so a row with an
empty bangla cell stores the value `[""]`.  Every key inserted into either
index is the lower-casing of some non-empty stripped piece of a source cell
(hence non-empty), while every stored value is the stripped piece list of
some row's bangla cell, with its original casing (values are never
lower-cased). -/
theorem claim_C3_keys_nonempty_lowercased :
    (∀ (rows : List Row) (q : String × List String),
      q ∈ (build_dictionaries rows).chakma_to_bangla →
      q.1 ≠ "" ∧
        (∃ r ∈ rows, ∃ w ∈ splitWords r.chakma, w ≠ "" ∧ q.1 = pyLower w) ∧
        ∃ r ∈ rows, q.2 = splitWords r.bangla) ∧
    (∀ (rows : List Row) (q : String × List String),
      q ∈ (build_dictionaries rows).bangla_to_chakma →
      q.1 ≠ "" ∧
        (∃ r ∈ rows, ∃ w ∈ splitWords r.bangla, w ≠ "" ∧ q.1 = pyLower w) ∧
        ∃ r ∈ rows, q.2 = splitWords r.bangla) ∧
    (build_dictionaries [⟨"x", ""⟩]).bangla_to_chakma = [] ∧
    dget (build_dictionaries [⟨"x", ""⟩]).chakma_to_bangla "x" = some [""] := by
  refine ⟨?_, ?_, ?_, ?_⟩
  · intro rows q hq
    obtain ⟨r, hr, w, hw, hne, hq2⟩ := mem_build_c2b rows q hq
    subst hq2
    exact ⟨pyLower_ne_empty w hne, ⟨r, hr, w, hw, hne, rfl⟩, ⟨r, hr, rfl⟩⟩
  · intro rows q hq
    obtain ⟨r, hr, w, hw, hne, hq2⟩ := mem_build_b2c rows q hq
    subst hq2
    exact ⟨pyLower_ne_empty w hne, ⟨r, hr, w, hw, hne, rfl⟩, ⟨r, hr, rfl⟩⟩
  · decide
  · decide

/-- Witness for C3 (amended): the key-and-value invariant applied to the
single entry built from the row `("C1", "b1")`. -/
theorem claim_C3_witness :
    (("c1", ["b1"]) : String × List String).1 ≠ "" ∧
    (∃ r ∈ [(⟨"C1", "b1"⟩ : Row)], ∃ w ∈ splitWords r.chakma, w ≠ "" ∧
      (("c1", ["b1"]) : String × List String).1 = pyLower w) ∧
    ∃ r ∈ [(⟨"C1", "b1"⟩ : Row)],
      (("c1", ["b1"]) : String × List String).2 = splitWords r.bangla :=
  claim_C3_keys_nonempty_lowercased.1 [⟨"C1", "b1"⟩] ("c1", ["b1"]) (by decide)

/-- C5: for every non-empty word and either direction, `translate_word` over
the dictionaries built from any source rows returns a non-empty list: a miss
falls back to the one-element list of the lower-cased word, and every stored
synonym list is the split of some cell, which always has at least one
piece. -/
theorem claim_C5_nonempty (rows : List Row) (w : String) (b : Bool)
    (_hw : w ≠ "") :
    translate_word (build_dictionaries rows) w b ≠ [] := by
  have key : ∀ (dd : Dict), (∀ q ∈ dd, q.2 ≠ ([] : List String)) →
      (dget dd (pyLower w)).getD [pyLower w] ≠ [] := by
    intro dd hdd
    cases hd : dget dd (pyLower w) with
    | none => simp
    | some v =>
      simp only [Option.getD_some]
      exact hdd _ (mem_of_dget _ _ _ hd)
  cases b
  · show (dget (build_dictionaries rows).bangla_to_chakma (pyLower w)).getD
      [pyLower w] ≠ []
    refine key _ ?_
    intro q hq
    obtain ⟨r, _, w2, _, _, hq2⟩ := mem_build_b2c rows q hq
    rw [hq2]
    exact splitWords_ne_nil _
  · show (dget (build_dictionaries rows).chakma_to_bangla (pyLower w)).getD
      [pyLower w] ≠ []
    refine key _ ?_
    intro q hq
    obtain ⟨r, _, w2, _, _, hq2⟩ := mem_build_c2b rows q hq
    rw [hq2]
    exact splitWords_ne_nil _

/-- Witness for C5: the unknown non-empty word `"zzz"` on empty dictionaries
still yields a non-empty result. -/
theorem claim_C5_witness :
    translate_word (build_dictionaries []) "zzz" true ≠ [] :=
  claim_C5_nonempty [] "zzz" true (by decide)

/-- C8: `translate_word` is case-insensitive in its word argument: two words
with the same lower-casing translate identically in either direction, and in
particular `translate_word d "ABC" b = translate_word d "abc" b`. -/
theorem claim_C8_case_insensitive (d : Dicts) (b : Bool) :
    (∀ w1 w2 : String, pyLower w1 = pyLower w2 →
      translate_word d w1 b = translate_word d w2 b) ∧
    translate_word d "ABC" b = translate_word d "abc" b := by
  have main : ∀ w1 w2 : String, pyLower w1 = pyLower w2 →
      translate_word d w1 b = translate_word d w2 b := by
    intro w1 w2 h
    show (dget (if b then d.chakma_to_bangla else d.bangla_to_chakma)
        (pyLower w1)).getD [pyLower w1]
      = (dget (if b then d.chakma_to_bangla else d.bangla_to_chakma)
        (pyLower w2)).getD [pyLower w2]
    rw [h]
  exact ⟨main, main "ABC" "abc" (by decide)⟩

/-- Witness for C8: two mixed-case variants of the same unknown word
translate identically. -/
theorem claim_C8_witness :
    translate_word (build_dictionaries []) "AbC" true
      = translate_word (build_dictionaries []) "aBc" true :=
  (claim_C8_case_insensitive (build_dictionaries []) true).1 "AbC" "aBc" (by decide)

/-- C9: the word endpoint replies 400 with an error field exactly when the
request body is missing, lacks the `text` field, or has a `text` that strips
to the empty string; in particular `{"text": "", "to_bangla": true}` gets a
400 reply carrying an error field.  The handler is a pure read-only consumer
of the shared dictionaries: the embedding returns no modified state,
mirroring the code, so no request mutates the indexes. -/
theorem claim_C9_word_endpoint_400 (t : Dicts) (data : Option ReqBody) :
    (((translate_word_endpoint t data).status = 400 ∧
        (translate_word_endpoint t data).error.isSome) ↔
      (data = none ∨ (∃ d, data = some d ∧ d.text = none) ∨
        ∃ d raw, data = some d ∧ d.text = some raw ∧ pyStrip raw = "")) ∧
    (translate_word_endpoint t (some ⟨some "", some true⟩)).status = 400 ∧
    (translate_word_endpoint t (some ⟨some "", some true⟩)).error.isSome := by
  refine ⟨?_, rfl, rfl⟩
  cases data with
  | none => simp [translate_word_endpoint]
  | some d =>
    cases htext : d.text with
    | none => simp [translate_word_endpoint, htext]
    | some raw =>
      by_cases hs : pyStrip raw = ""
      · simp [translate_word_endpoint, htext, hs]
      · simp [translate_word_endpoint, htext, hs]

/-- Witness for C9: a request with no JSON body is answered 400. -/
theorem claim_C9_witness :
    (translate_word_endpoint (build_dictionaries []) none).status = 400 :=
  ((claim_C9_word_endpoint_400 (build_dictionaries []) none).1.mpr (Or.inl rfl)).1

/-! Stripping lemmas -/

theorem dropWhile_idem {α : Type} (p : α → Bool) (l : List α) :
    (l.dropWhile p).dropWhile p = l.dropWhile p := by
  induction l with
  | nil => rfl
  | cons c cs ih =>
    rw [List.dropWhile_cons]
    by_cases hc : p c
    · rw [if_pos hc]; exact ih
    · rw [if_neg hc, List.dropWhile_cons_of_neg hc]

theorem dropWhile_eq_self_of_head {α : Type} (p : α → Bool) (l : List α)
    (h : ∀ c, l.head? = some c → p c = false) : l.dropWhile p = l := by
  cases l with
  | nil => rfl
  | cons c cs =>
    have hc := h c rfl
    rw [List.dropWhile_cons_of_neg (by simp [hc])]

theorem getLast?_dropWhile {α : Type} (p : α → Bool) (l : List α)
    (h : l.dropWhile p ≠ []) : (l.dropWhile p).getLast? = l.getLast? := by
  induction l with
  | nil => rfl
  | cons c cs ih =>
    by_cases hc : p c
    · rw [List.dropWhile_cons_of_pos hc] at h ⊢
      rw [ih h]
      cases cs with
      | nil => simp at h
      | cons e es => rw [List.getLast?_cons_cons]
    · rw [List.dropWhile_cons_of_neg hc]

theorem head?_dropWhile_false {α : Type} (p : α → Bool) (l : List α) (c : α)
    (h : (l.dropWhile p).head? = some c) : p c = false := by
  have h2 := List.head?_dropWhile_not p l
  rw [h] at h2
  exact h2

theorem stripChars_idem (l : List Char) :
    stripChars (stripChars l) = stripChars l := by
  have fact2 : (stripChars l).dropWhile isWS = stripChars l := by
    apply dropWhile_eq_self_of_head
    intro c hc
    unfold stripChars at hc
    by_cases hBnil : (l.dropWhile isWS).reverse.dropWhile isWS = []
    · rw [hBnil] at hc; cases hc
    · rw [List.head?_reverse, getLast?_dropWhile _ _ hBnil,
        List.getLast?_reverse] at hc
      exact head?_dropWhile_false isWS l c hc
  have fact1 : (stripChars l).reverse.dropWhile isWS = (stripChars l).reverse := by
    unfold stripChars
    rw [List.reverse_reverse]
    exact dropWhile_idem _ _
  show (((stripChars l).dropWhile isWS).reverse.dropWhile isWS).reverse
    = stripChars l
  rw [fact2, fact1, List.reverse_reverse]

theorem pyStrip_idem (s : String) : pyStrip (pyStrip s) = pyStrip s := by
  show String.mk (stripChars (String.mk (stripChars s.data)).data)
    = String.mk (stripChars s.data)
  exact congrArg String.mk (stripChars_idem s.data)

theorem splitWords_stripped (cell : String) (x : String)
    (hx : x ∈ splitWords cell) : pyStrip x = x := by
  unfold splitWords at hx
  rcases List.mem_map.mp hx with ⟨y, _, rfl⟩
  exact pyStrip_idem y

/-- C10: every key of the built `bangla_to_chakma` index has, among its
stored synonyms, at least one term that is already trimmed, is non-empty,
and whose trimmed lower-cased form equals the key; hence translating any
known bangla word in the bangla-to-chakma direction returns a list
containing the queried word itself up to case. -/
theorem claim_C10_b2c_contains_self (rows : List Row) :
    (∀ q ∈ (build_dictionaries rows).bangla_to_chakma,
      ∃ t ∈ q.2, t ≠ "" ∧ pyStrip t = t ∧ pyLower (pyStrip t) = q.1) ∧
    (∀ (w : String) (v : List String),
      dget (build_dictionaries rows).bangla_to_chakma (pyLower w) = some v →
      ∃ t ∈ translate_word (build_dictionaries rows) w false,
        pyLower t = pyLower w) := by
  have part1 : ∀ q ∈ (build_dictionaries rows).bangla_to_chakma,
      ∃ t ∈ q.2, t ≠ "" ∧ pyStrip t = t ∧ pyLower (pyStrip t) = q.1 := by
    intro q hq
    obtain ⟨r, _, w, hw, hne, hq2⟩ := mem_build_b2c rows q hq
    subst hq2
    have hst : pyStrip w = w := splitWords_stripped _ _ hw
    exact ⟨w, hw, hne, hst, by rw [hst]⟩
  refine ⟨part1, ?_⟩
  intro w v hv
  obtain ⟨t, ht, _, hst, hlow⟩ := part1 _ (mem_of_dget _ _ _ hv)
  have hres : translate_word (build_dictionaries rows) w false = v := by
    show (dget (build_dictionaries rows).bangla_to_chakma (pyLower w)).getD
      [pyLower w] = v
    rw [hv]
    rfl
  rw [hres]
  rw [hst] at hlow
  exact ⟨t, ht, hlow⟩

/-- Witness for C10: the known bangla word `"BAN1"` (stored as `"Ban1"`)
translates, in the bangla-to-chakma direction, to a list containing itself
up to case. -/
theorem claim_C10_witness :
    ∃ t ∈ translate_word (build_dictionaries [⟨"c1", "Ban1"⟩]) "BAN1" false,
      pyLower t = pyLower "BAN1" :=
  (claim_C10_b2c_contains_self [⟨"c1", "Ban1"⟩]).2 "BAN1" ["Ban1"] (by decide)

/-! Sentence lemmas -/

theorem translate_sentence_snd (d : Dicts) (s : String) (b : Bool) :
    (translate_sentence d s b).2 =
      if (altEntries d s b).isEmpty then ["No alternative translations"]
      else altEntries d s b := rfl

theorem sentinel_ne_entry (w r : String) :
    "No alternative translations" ≠ w ++ ": " ++ r := by
  intro hc
  have hd := congrArg String.data hc
  rw [String.data_append, String.data_append] at hd
  have hmem : (':' : Char) ∈ ("No alternative translations").data := by
    rw [hd]
    exact List.mem_append_left _ (List.mem_append_right _ (by decide))
  exact absurd hmem (by decide)

/-- C6: the alternatives component of `translate_sentence` equals the
single-element sentinel list `["No alternative translations"]` exactly when
no whitespace token's lookup produced more than one synonym, and the
alternatives list is never empty. -/
theorem claim_C6_sentinel_iff (d : Dicts) (s : String) (b : Bool) :
    ((translate_sentence d s b).2 = ["No alternative translations"] ↔
      ∀ w ∈ pySplitWs s, (translate_word d w b).length ≤ 1) ∧
    (translate_sentence d s b).2 ≠ [] := by
  rw [translate_sentence_snd]
  by_cases hAP : (altEntries d s b).isEmpty
  · rw [if_pos hAP]
    rw [List.isEmpty_eq_true] at hAP
    refine ⟨⟨fun _ => ?_, fun _ => rfl⟩, by simp⟩
    unfold altEntries at hAP
    rw [List.filterMap_eq_nil_iff] at hAP
    intro w hw
    have h2 := hAP w hw
    by_contra hlen
    have hgt : (translate_word d w b).length > 1 := by omega
    rw [if_pos hgt] at h2
    cases h2
  · rw [if_neg hAP]
    have hne : altEntries d s b ≠ [] := by
      simpa [List.isEmpty_eq_true] using hAP
    refine ⟨⟨fun heq => ?_, fun hall => ?_⟩, hne⟩
    · have hmem : "No alternative translations" ∈ altEntries d s b := by
        rw [heq]
        exact List.mem_singleton_self _
      rcases List.mem_filterMap.mp hmem with ⟨w, hw, hf⟩
      by_cases hlen : (translate_word d w b).length > 1
      · rw [if_pos hlen] at hf
        exact absurd (Option.some.inj hf).symm (sentinel_ne_entry w _)
      · rw [if_neg hlen] at hf
        cases hf
    · exfalso
      apply hne
      unfold altEntries
      rw [List.filterMap_eq_nil_iff]
      intro w hw
      rw [if_neg (by have := hall w hw; omega)]

/-- Witness for C6: on the single row `("cha1, cha2", "ban1")`, the sentence
`"cha1 unknownxyz"` (every token's lookup has at most one element) yields
the sentinel alternatives list. -/
theorem claim_C6_witness :
    (translate_sentence (build_dictionaries [⟨"cha1, cha2", "ban1"⟩])
      "cha1 unknownxyz" true).2 = ["No alternative translations"] :=
  ((claim_C6_sentinel_iff (build_dictionaries [⟨"cha1, cha2", "ban1"⟩])
    "cha1 unknownxyz" true).1).mpr (by decide)

/-! Whitespace split and join lemmas -/

theorem splitWsChars_cons_ws (c : Char) (cs acc : List Char)
    (hc : isWS c = true) :
    splitWsChars (c :: cs) acc =
      if acc.isEmpty then splitWsChars cs []
      else acc.reverse :: splitWsChars cs [] := by
  simp [splitWsChars, hc]

theorem splitWsChars_cons_not (c : Char) (cs acc : List Char)
    (hc : isWS c = false) :
    splitWsChars (c :: cs) acc = splitWsChars cs (c :: acc) := by
  simp [splitWsChars, hc]

theorem splitWsChars_append_token (t : List Char) (rest acc : List Char)
    (ht : ∀ c ∈ t, isWS c = false) :
    splitWsChars (t ++ rest) acc = splitWsChars rest (t.reverse ++ acc) := by
  induction t generalizing acc with
  | nil => simp
  | cons c cs ih =>
    rw [List.cons_append,
      splitWsChars_cons_not c _ _ (ht c (List.mem_cons_self _ _)),
      ih _ (fun x hx => ht x (List.mem_cons_of_mem _ hx)),
      List.reverse_cons, List.append_assoc]
    rfl

theorem data_ne_nil_of_ne_empty (x : String) (h : x ≠ "") : x.data ≠ [] :=
  fun hc => h (String.ext hc)

theorem pySplitWsChars_join (L : List String)
    (h : ∀ x ∈ L, x ≠ "" ∧ ∀ c ∈ x.data, isWS c = false) :
    splitWsChars (pyJoin " " L).data [] = L.map String.data := by
  induction L with
  | nil => rfl
  | cons x xs ih =>
    cases xs with
    | nil =>
      obtain ⟨hx1, hx2⟩ := h x (List.mem_cons_self _ _)
      show splitWsChars x.data [] = [x.data]
      have h1 := splitWsChars_append_token x.data [] [] hx2
      rw [List.append_nil, List.append_nil] at h1
      rw [h1]
      show (if x.data.reverse.isEmpty then []
        else [x.data.reverse.reverse]) = [x.data]
      rw [if_neg (by simp [data_ne_nil_of_ne_empty x hx1]),
        List.reverse_reverse]
    | cons y ys =>
      obtain ⟨hx1, hx2⟩ := h x (List.mem_cons_self _ _)
      have hrest := ih (fun z hz => h z (List.mem_cons_of_mem _ hz))
      show splitWsChars (x ++ " " ++ pyJoin " " (y :: ys)).data []
        = x.data :: (y :: ys).map String.data
      rw [String.data_append, String.data_append, List.append_assoc]
      have h1 := splitWsChars_append_token x.data
        ((" ").data ++ (pyJoin " " (y :: ys)).data) [] hx2
      rw [h1, List.append_nil]
      show splitWsChars (' ' :: (pyJoin " " (y :: ys)).data) x.data.reverse
        = x.data :: (y :: ys).map String.data
      rw [splitWsChars_cons_ws ' ' _ _ (by decide),
        if_neg (by simp [data_ne_nil_of_ne_empty x hx1]),
        List.reverse_reverse, hrest]

/-- C7 counterexample: for the dictionaries built from the single row
`("x", "")`, the stored synonym list of `"x"` is `[""]`, so translating the
one-token sentence `"x"` yields the primary output `""`, which splits into
ZERO whitespace tokens — not the one token the claim requires. -/
theorem claim_C7_counterexample :
    (pySplitWs "x").length = 1 ∧
    (pySplitWs (translate_sentence (build_dictionaries [⟨"x", ""⟩])
      "x" true).1).length = 0 ∧
    (0 : Nat) ≠ 1 := by
  refine ⟨?_, ?_, ?_⟩ <;> decide

/-- C7 amended: the primary output of `translate_sentence` is always the
single-space join, in original order, of each input token's first
translation; and whenever every token's first translation is non-empty and
contains no whitespace (in particular for ordinary dictionary data), the
primary output splits into exactly as many whitespace tokens as the input
sentence.  The unconditional count equality fails when a stored synonym is
empty or contains internal whitespace. -/
theorem claim_C7_primary_tokens (d : Dicts) (s : String) (b : Bool) :
    (translate_sentence d s b).1
      = pyJoin " " ((pySplitWs s).map
          (fun w => (translate_word d w b).headD "")) ∧
    ((∀ w ∈ pySplitWs s, (translate_word d w b).headD "" ≠ "" ∧
        ∀ c ∈ ((translate_word d w b).headD "").data, isWS c = false) →
      (pySplitWs (translate_sentence d s b).1).length
        = (pySplitWs s).length) := by
  constructor
  · rfl
  · intro h
    have hL : ∀ x ∈ (pySplitWs s).map (fun w => (translate_word d w b).headD ""),
        x ≠ "" ∧ ∀ c ∈ x.data, isWS c = false := by
      intro x hx
      rcases List.mem_map.mp hx with ⟨w, hw, rfl⟩
      exact h w hw
    have h2 : pySplitWs (translate_sentence d s b).1
        = (pySplitWs s).map (fun w => (translate_word d w b).headD "") := by
      show (splitWsChars (pyJoin " " ((pySplitWs s).map
          (fun w => (translate_word d w b).headD ""))).data []).map
          (fun l => String.mk l)
        = (pySplitWs s).map (fun w => (translate_word d w b).headD "")
      rw [pySplitWsChars_join _ hL, List.map_map]
      exact List.map_id _
    rw [h2, List.length_map]

/-- Witness for C7 (amended): on the row `("cha1, cha2", "ban1")` and the
sentence `"cha1 zzz"`, every token's first translation is a plain word, and
the primary output has the same token count as the input. -/
theorem claim_C7_witness :
    (pySplitWs (translate_sentence (build_dictionaries [⟨"cha1, cha2", "ban1"⟩])
      "cha1 zzz" true).1).length = (pySplitWs "cha1 zzz").length :=
  (claim_C7_primary_tokens (build_dictionaries [⟨"cha1, cha2", "ban1"⟩])
    "cha1 zzz" true).2 (by decide)

end Main
